import Mathlib

/-!
Shallow embedding of `src/src/lib.rs` (crate `my_kmeans_lib`), the k-means
clustering engine `DataSet::kmeans3d` and its helpers.

Modelling choices:
* `f32` values are modelled as exact rationals `ℚ` (no rounding, no NaN:
  the claims under study concern well-formed numeric inputs).
* The data matrix `Array2<f32>` is modelled as a list of rows
  `List (List ℚ)`; `Array2` is rectangular, but the embedding works
  row-wise so rectangularity is only assumed where a claim needs it.
* Out-of-bounds indexing and `ndarray` shape-mismatch panics are modelled
  by the `KErr.panic` error of an `Except` result.
* `ndarray::ArrayBase::assign` broadcasts its right-hand side: assigning a
  row of length 1 into a centroid row of width 3 repeats the single
  element; any other length than 1 or 3 panics (`assignRow3`).
* The random source (`thread_rng`) is an explicit parameter: the shuffled
  index vector `indices` after `indices.shuffle(&mut rng)` is the
  parameter `perm` (a permutation of `0..nrows` for every real rng state),
  and each call `rng.gen_range(0..nrows)` yields `reseed ctr % nrows` for
  a counter `ctr` that advances by one per call, `reseed : ℕ → ℕ` being an
  arbitrary stream.
* `best_dist` starts at `f32::MAX`; since every real distance compares
  strictly below `MAX`, this initial value is modelled as `none`
  ("no centroid inspected yet"), beaten by the first centroid.
* `e_dist3` compares `sqrt`s of sums of squares; the loop is embedded
  with the (rational) squared distances `dsq`, and the order isomorphism
  between the two is proved (`e_dist3_le_iff`, `e_dist3_lt_iff`).
-/

namespace RustKmeans

/-- A 3D point (one row restricted to three coordinates); `f32` modelled as `ℚ`. -/
structure P3 where
  x : ℚ
  y : ℚ
  z : ℚ
  deriving DecidableEq, Repr

/-- The numeric matrix: a list of rows. -/
abbrev Mat := List (List ℚ)

/-- Errors of the embedded engine: the explicit `Err` return
(`Not enough data points ... for ... clusters`, the `InsufficientDataError`
of the spec) and a Rust panic (out-of-bounds index or `ndarray` shape
mismatch). -/
inductive KErr where
  | insufficientData
  | panic
  deriving DecidableEq, Repr

/-- Embedding of `DataSet::numeric_view(ncols)`: the first `min(ncols, self.ncols)`
columns of every row. -/
def numeric_view (ncols : ℕ) (m : Mat) : Mat :=
  m.map (fun r => r.take ncols)

/-- The radicand of `e_dist3`: `(a0-b0)^2 + (a1-b1)^2 + (a2-b2)^2`. -/
def dsq (a b : P3) : ℚ :=
  (a.x - b.x) ^ 2 + (a.y - b.y) ^ 2 + (a.z - b.z) ^ 2

/-- Embedding of `DataSet::e_dist3`: Euclidean distance
`((a0-b0)^2 + (a1-b1)^2 + (a2-b2)^2).sqrt()`. -/
noncomputable def e_dist3 (a b : P3) : ℝ :=
  Real.sqrt ((dsq a b : ℚ) : ℝ)

/-- Reading `[row[0], row[1], row[2]]` from a data row in the assignment
step: panics (`none`) when the row has fewer than 3 entries. -/
def readP3 : List ℚ → Option P3
  | a :: b :: c :: _ => some ⟨a, b, c⟩
  | _ => none

/-- Embedding of `centroids.row_mut(ci).assign(&row)` for a centroid row of width 3:
`ndarray` broadcast semantics — a source of shape `(3,)` is copied, a
source of shape `(1,)` is broadcast (repeated), any other shape panics.
Rows reaching this function come from `numeric_view 3`, so their length
is at most 3. -/
def assignRow3 : List ℚ → Option P3
  | [a] => some ⟨a, a, a⟩
  | [a, b, c] => some ⟨a, b, c⟩
  | _ => none

/-- Centroid initialization: `centroids.row_mut(ci).assign(&data.row(idx))`
for each of the first k shuffled indices (`data.row` panics when the index
is out of bounds). -/
def initCentroids (data : Mat) : List ℕ → Except KErr (List P3)
  | [] => .ok []
  | idx :: rest =>
    match data[idx]? with
    | none => .error .panic
    | some row =>
      match assignRow3 row with
      | none => .error .panic
      | some p =>
        match initCentroids data rest with
        | .error e => .error e
        | .ok ps => .ok (p :: ps)

/-- The inner loop of the assignment step, carried state
`(best_cluster, best_dist)`: for each centroid index `ci`, update the
state when `dist < best_dist`. Distances are compared through their
squares (`dsq`), and the initial `f32::MAX` is the `none` state. -/
def bestLoop (p : P3) : List P3 → ℕ → ℕ × Option ℚ → ℕ × Option ℚ
  | [], _, acc => acc
  | c :: rest, ci, (best, bestD) =>
    let d := dsq p c
    match bestD with
    | none => bestLoop p rest (ci + 1) (ci, some d)
    | some bd =>
      if d < bd then bestLoop p rest (ci + 1) (ci, some d)
      else bestLoop p rest (ci + 1) (best, some bd)

/-- Embedding of `best_cluster` for one point: starts at `best_cluster = 0`,
`best_dist = f32::MAX`. -/
def bestCluster (p : P3) (cs : List P3) : ℕ :=
  (bestLoop p cs 0 (0, none)).1

/-- Step 1 of an iteration: for every data row read
`[row[0], row[1], row[2]]` (panic when the row is shorter) and record the
index of the nearest centroid. -/
def assignStep (cs : List P3) : Mat → Except KErr (List ℕ)
  | [] => .ok []
  | row :: rest =>
    match readP3 row with
    | none => .error .panic
    | some p =>
      match assignStep cs rest with
      | .error e => .error e
      | .ok tl => .ok (bestCluster p cs :: tl)

/-- The accumulation loop of step 2: for each data row `i`, with
`c = assignments[i]`, execute `new_centroids.row_mut(c).assign(&row)`
(an overwrite, exactly as in the source) and `counts[c] += 1`; panics when
`c ≥ k` or when `assignments` is shorter than the data. -/
def accumStep (k : ℕ) : Mat → List ℕ → List P3 → List ℕ →
    Except KErr (List P3 × List ℕ)
  | [], _, nc, counts => .ok (nc, counts)
  | _ :: _, [], _, _ => .error .panic
  | row :: rest, c :: arest, nc, counts =>
    if c < k then
      match assignRow3 row with
      | none => .error .panic
      | some p =>
        accumStep k rest arest (nc.set c p) (counts.set c (counts.getD c 0 + 1))
    else .error .panic

/-- The per-cluster loop of step 2: a cluster with a positive count has its
row divided coordinate-wise by the count; an empty cluster is reseeded
from `data.row(rng.gen_range(0..nrows))`, modelled as row
`reseed ctr % n` with the rng counter `ctr` advancing by one per reseed. -/
def finalizeStep (data : Mat) (n : ℕ) (reseed : ℕ → ℕ) :
    List P3 → List ℕ → ℕ → Except KErr (List P3 × ℕ)
  | [], _, ctr => .ok ([], ctr)
  | _ :: _, [], _ => .error .panic
  | p :: ps, cnt :: cnts, ctr =>
    if 0 < cnt then
      match finalizeStep data n reseed ps cnts ctr with
      | .error e => .error e
      | .ok (qs, ctr2) =>
        .ok (⟨p.x / (cnt : ℚ), p.y / (cnt : ℚ), p.z / (cnt : ℚ)⟩ :: qs, ctr2)
    else
      match data[reseed ctr % n]? with
      | none => .error .panic
      | some row =>
        match assignRow3 row with
        | none => .error .panic
        | some q =>
          match finalizeStep data n reseed ps cnts (ctr + 1) with
          | .error e => .error e
          | .ok (qs, ctr2) => .ok (q :: qs, ctr2)

/-- Step 2 of an iteration: zero-initialized `new_centroids` and `counts`,
the accumulation loop, then the per-cluster divide-or-reseed loop. -/
def updateStep (data : Mat) (n k : ℕ) (reseed : ℕ → ℕ) (asg : List ℕ)
    (ctr : ℕ) : Except KErr (List P3 × ℕ) :=
  match accumStep k data asg (List.replicate k ⟨0, 0, 0⟩) (List.replicate k 0) with
  | .error e => .error e
  | .ok (nc0, counts) => finalizeStep data n reseed nc0 counts ctr

/-- Embedding of `(&centroids - &new_centroids).mapv(|x| x.abs()).sum()`: the total
absolute coordinate-wise difference over all centroids. -/
def diffSum : List P3 → List P3 → ℚ
  | [], _ => 0
  | _, [] => 0
  | a :: arest, b :: brest =>
    |a.x - b.x| + |a.y - b.y| + |a.z - b.z| + diffSum arest brest

/-- The main iteration loop `for _ in 0..max_iter`: assignment step,
update step, convergence check (`diff < 1e-4` breaks, returning the
assignments of step 1 of this iteration), else adopt the new centroids.
When the iteration budget is exhausted the current assignments are
returned. -/
def kloop (data : Mat) (n k : ℕ) (reseed : ℕ → ℕ) :
    ℕ → List P3 → List ℕ → ℕ → Except KErr (List ℕ)
  | 0, _, asg, _ => .ok asg
  | m + 1, cs, _asg, ctr =>
    match assignStep cs data with
    | .error e => .error e
    | .ok asg2 =>
      match updateStep data n k reseed asg2 ctr with
      | .error e => .error e
      | .ok (nc, ctr2) =>
        if diffSum cs nc < 1 / 10000 then .ok asg2
        else kloop data n k reseed m nc asg2 ctr2

/-- Embedding of `DataSet::kmeans3d(k, max_iter)`: restrict to the first 3 columns,
reject `nrows < k` with `InsufficientDataError`, place the initial
centroids at the rows of the first k shuffled indices, run the loop with
`assignments = vec![0; nrows]`. `perm` is the shuffled index vector and
`reseed` the stream behind `gen_range` (see the module docstring). -/
def kmeans3d (ds : Mat) (k max_iter : ℕ) (perm : List ℕ)
    (reseed : ℕ → ℕ) : Except KErr (List ℕ) :=
  let data := numeric_view 3 ds
  let nrows := data.length
  if nrows < k then .error .insufficientData
  else
    match initCentroids data (perm.take k) with
    | .error e => .error e
    | .ok cs => kloop data nrows k reseed max_iter cs (List.replicate nrows 0) 0

/-- Modelled from the spec ("recompute each centroid as the coordinate-wise
arithmetic mean of all points currently assigned to it"): the mean of a
list of points, used only to compare the update step of the source against
the words of the spec. -/
def specMeanCentroid (pts : List P3) : P3 :=
  let s := pts.foldl (fun a p => P3.mk (a.x + p.x) (a.y + p.y) (a.z + p.z)) ⟨0, 0, 0⟩
  ⟨s.x / (pts.length : ℚ), s.y / (pts.length : ℚ), s.z / (pts.length : ℚ)⟩

end RustKmeans

namespace RustKmeans

/-! ### Basic facts about the distance -/

lemma dsq_nonneg (a b : P3) : 0 ≤ dsq a b := by
  unfold dsq; positivity

lemma e_dist3_le_iff (a b c d : P3) :
    e_dist3 a b ≤ e_dist3 c d ↔ dsq a b ≤ dsq c d := by
  unfold e_dist3
  rw [Real.sqrt_le_sqrt_iff (by exact_mod_cast dsq_nonneg c d)]
  exact_mod_cast Iff.rfl

lemma e_dist3_lt_iff (a b c d : P3) :
    e_dist3 a b < e_dist3 c d ↔ dsq a b < dsq c d := by
  unfold e_dist3
  rw [Real.sqrt_lt_sqrt_iff (by exact_mod_cast dsq_nonneg a b)]
  exact_mod_cast Iff.rfl

/-- C10: the Euclidean distance function applied to the points (0,0,0) and
(0,3,4) returns exactly 5.0 (3-4-5 triangle, degenerate in two of the
three coordinates). -/
theorem C10_distance_345_triangle : e_dist3 ⟨0, 0, 0⟩ ⟨0, 3, 4⟩ = 5 := by
  have h : dsq ⟨0, 0, 0⟩ ⟨0, 3, 4⟩ = 25 := by norm_num [dsq]
  rw [e_dist3, h, show ((25 : ℚ) : ℝ) = (5 : ℝ) ^ 2 by norm_num]
  exact Real.sqrt_sq (by norm_num)

/-- C1: the update step does not compute the coordinate-wise mean. With the
points (1,0,0) and (3,0,0) both assigned to the single cluster (which the
assignment step produces when k = 1), the update step yields the centroid
(3/2, 0, 0) — the last assigned point divided by the count, because the
accumulation uses `assign` (overwrite) instead of addition — while the
arithmetic mean of the assigned points is (2, 0, 0). -/
theorem C1_update_not_mean :
    assignStep [⟨1, 0, 0⟩] (numeric_view 3 [[(1 : ℚ), 0, 0], [3, 0, 0]]) =
      .ok [0, 0] ∧
    updateStep (numeric_view 3 [[(1 : ℚ), 0, 0], [3, 0, 0]]) 2 1 (fun _ => 0)
      [0, 0] 0 = .ok ([⟨3 / 2, 0, 0⟩], 0) ∧
    specMeanCentroid [⟨1, 0, 0⟩, ⟨3, 0, 0⟩] = ⟨2, 0, 0⟩ ∧
    (⟨3 / 2, 0, 0⟩ : P3) ≠ ⟨2, 0, 0⟩ := by
  refine ⟨rfl, ?_, ?_, ?_⟩
  · norm_num [updateStep, accumStep, finalizeStep, numeric_view, assignRow3]
  · norm_num [specMeanCentroid, P3.mk.injEq]
  · norm_num [P3.mk.injEq]

/-- C2 counterexample: with k = 0 and one data point, `kmeans3d` with
`max_iter = 0` returns an assignment (with the out-of-range label 0)
instead of failing with `InsufficientDataError`: the guard `nrows < k` is
false for k = 0. -/
theorem C2_k_zero_returns_ok :
    kmeans3d [[(1 : ℚ), 2, 3]] 0 0 [0] (fun _ => 0) = .ok [0] := rfl

/-- C3 counterexample: with `max_iter = 0` the returned labels are the
initial `vec![0; nrows]`, not the nearest-initial-centroid assignment.
Here the initial centroids are rows 0 and 1, point 1 = (10,0,0) is
strictly closer to centroid 1 than to centroid 0, yet its label is 0. -/
theorem C3_zero_iter_not_nearest :
    kmeans3d [[(0 : ℚ), 0, 0], [10, 0, 0]] 2 0 [0, 1] (fun _ => 0) =
      .ok [0, 0] ∧
    initCentroids (numeric_view 3 [[(0 : ℚ), 0, 0], [10, 0, 0]])
      ([0, 1].take 2) = .ok [⟨0, 0, 0⟩, ⟨10, 0, 0⟩] ∧
    e_dist3 ⟨10, 0, 0⟩ ⟨10, 0, 0⟩ < e_dist3 ⟨10, 0, 0⟩ ⟨0, 0, 0⟩ :=
  ⟨rfl, rfl, by rw [e_dist3_lt_iff]; norm_num [dsq]⟩

/-- C5 counterexample: a dataset with a single column (row length 1 < 3),
k = 1, one row, does not panic when `max_iter = 0`: the length-1 row is
broadcast into the 3-wide centroid row by the `ndarray` assign, the
iteration loop body never runs, and `Ok(vec![0])` is returned. -/
theorem C5_one_column_no_panic :
    ([(5 : ℚ)].length = 1) ∧
    kmeans3d [[(5 : ℚ)]] 1 0 [0] (fun _ => 0) = .ok [0] :=
  ⟨rfl, rfl⟩


/-! ### Error classification: every failure after the precondition check is
a panic, never `InsufficientDataError` -/

lemma initCentroids_error (data : Mat) :
    ∀ {idxs : List ℕ} {e : KErr}, initCentroids data idxs = .error e → e = .panic := by
  intro idxs
  induction idxs with
  | nil => intro e h; simp [initCentroids] at h
  | cons idx rest ih =>
    intro e h
    unfold initCentroids at h
    split at h
    · simp at h; exact h.symm
    · split at h
      · simp at h; exact h.symm
      · split at h
        · rename_i heq
          simp at h
          exact h ▸ ih heq
        · simp at h

lemma assignStep_error (cs : List P3) :
    ∀ {d : Mat} {e : KErr}, assignStep cs d = .error e → e = .panic := by
  intro d
  induction d with
  | nil => intro e h; simp [assignStep] at h
  | cons row rest ih =>
    intro e h
    unfold assignStep at h
    split at h
    · simp at h; exact h.symm
    · split at h
      · rename_i heq
        simp at h
        exact h ▸ ih heq
      · simp at h

lemma accumStep_error (k : ℕ) :
    ∀ {d : Mat} {asg : List ℕ} {nc : List P3} {counts : List ℕ} {e : KErr},
      accumStep k d asg nc counts = .error e → e = .panic := by
  intro d
  induction d with
  | nil => intro asg nc counts e h; cases asg <;> simp [accumStep] at h
  | cons row rest ih =>
    intro asg nc counts e h
    cases asg with
    | nil => simp [accumStep] at h; exact h.symm
    | cons c arest =>
      unfold accumStep at h
      split at h
      · split at h
        · simp at h; exact h.symm
        · exact ih h
      · simp at h; exact h.symm

lemma finalizeStep_error (data : Mat) (n : ℕ) (reseed : ℕ → ℕ) :
    ∀ {ps : List P3} {cnts : List ℕ} {ctr : ℕ} {e : KErr},
      finalizeStep data n reseed ps cnts ctr = .error e → e = .panic := by
  intro ps
  induction ps with
  | nil => intro cnts ctr e h; simp [finalizeStep] at h
  | cons p ps ih =>
    intro cnts ctr e h
    cases cnts with
    | nil => simp [finalizeStep] at h; exact h.symm
    | cons cnt cnts =>
      unfold finalizeStep at h
      split at h
      · split at h
        · rename_i heq
          simp at h
          exact h ▸ ih heq
        · simp at h
      · split at h
        · simp at h; exact h.symm
        · split at h
          · simp at h; exact h.symm
          · split at h
            · rename_i heq
              simp at h
              exact h ▸ ih heq
            · simp at h

lemma updateStep_error {data : Mat} {n k : ℕ} {reseed : ℕ → ℕ} {asg : List ℕ}
    {ctr : ℕ} {e : KErr} (h : updateStep data n k reseed asg ctr = .error e) :
    e = .panic := by
  unfold updateStep at h
  split at h
  · rename_i heq
    simp at h
    exact h ▸ accumStep_error k heq
  · exact finalizeStep_error data n reseed h

lemma kloop_error {data : Mat} {n k : ℕ} {reseed : ℕ → ℕ} :
    ∀ {m : ℕ} {cs : List P3} {asg : List ℕ} {ctr : ℕ} {e : KErr},
      kloop data n k reseed m cs asg ctr = .error e → e = .panic := by
  intro m
  induction m with
  | zero => intro cs asg ctr e h; simp [kloop] at h
  | succ m ih =>
    intro cs asg ctr e h
    unfold kloop at h
    split at h
    · rename_i heq
      simp at h
      exact h ▸ assignStep_error cs heq
    · split at h
      · rename_i heq
        simp at h
        exact h ▸ updateStep_error heq
      · split at h
        · simp at h
        · exact ih h

/-- C2 (amended): `kmeans3d` fails with `InsufficientDataError` exactly when
the number of points is less than k; the `k == 0` case is never rejected
by this error (the guard `nrows < k` is false for `k == 0`). -/
theorem C2_insufficient_iff (ds : Mat) (k max_iter : ℕ) (perm : List ℕ)
    (reseed : ℕ → ℕ) :
    kmeans3d ds k max_iter perm reseed = .error .insufficientData ↔
      ds.length < k := by
  unfold kmeans3d
  simp only [numeric_view, List.length_map]
  by_cases hk : ds.length < k
  · simp [hk]
  · simp only [hk, if_false]
    constructor
    · intro h
      split at h
      · rename_i heq
        simp at h
        have := initCentroids_error _ heq
        rw [this] at h
        exact absurd h.symm (by simp)
      · have := kloop_error h
        simp at this
    · intro h; exact h.elim


/-! ### Length preservation -/

lemma initCentroids_ok_length (data : Mat) :
    ∀ {idxs : List ℕ} {cs : List P3}, initCentroids data idxs = .ok cs →
      cs.length = idxs.length := by
  intro idxs
  induction idxs with
  | nil => intro cs h; simp [initCentroids] at h; simp [← h]
  | cons idx rest ih =>
    intro cs h
    unfold initCentroids at h
    split at h
    · simp at h
    · split at h
      · simp at h
      · split at h
        · simp at h
        · rename_i heq
          simp at h
          rw [← h]
          simp [ih heq]

lemma assignStep_ok_length (cs : List P3) :
    ∀ {d : Mat} {a : List ℕ}, assignStep cs d = .ok a → a.length = d.length := by
  intro d
  induction d with
  | nil => intro a h; simp [assignStep] at h; simp [← h]
  | cons row rest ih =>
    intro a h
    unfold assignStep at h
    split at h
    · simp at h
    · split at h
      · simp at h
      · rename_i heq
        simp at h
        rw [← h]
        simp [ih heq]

lemma accumStep_ok_length (k : ℕ) :
    ∀ {d : Mat} {asg : List ℕ} {nc : List P3} {counts : List ℕ}
      {nc2 : List P3} {counts2 : List ℕ},
      accumStep k d asg nc counts = .ok (nc2, counts2) →
      nc2.length = nc.length ∧ counts2.length = counts.length := by
  intro d
  induction d with
  | nil =>
    intro asg nc counts nc2 counts2 h
    cases asg <;> simp [accumStep] at h <;> simp [← h.1, ← h.2]
  | cons row rest ih =>
    intro asg nc counts nc2 counts2 h
    cases asg with
    | nil => simp [accumStep] at h
    | cons c arest =>
      unfold accumStep at h
      split at h
      · split at h
        · simp at h
        · have := ih h
          simpa using this
      · simp at h

lemma finalizeStep_ok_length (data : Mat) (n : ℕ) (reseed : ℕ → ℕ) :
    ∀ {ps : List P3} {cnts : List ℕ} {ctr : ℕ} {qs : List P3} {ctr2 : ℕ},
      finalizeStep data n reseed ps cnts ctr = .ok (qs, ctr2) →
      qs.length = ps.length := by
  intro ps
  induction ps with
  | nil => intro cnts ctr qs ctr2 h; simp [finalizeStep] at h; simp [← h.1]
  | cons p ps ih =>
    intro cnts ctr qs ctr2 h
    cases cnts with
    | nil => simp [finalizeStep] at h
    | cons cnt cnts =>
      unfold finalizeStep at h
      split at h
      · split at h
        · simp at h
        · rename_i heq
          simp at h
          rw [← h.1]
          simp [ih heq]
      · split at h
        · simp at h
        · split at h
          · simp at h
          · split at h
            · simp at h
            · rename_i heq
              simp at h
              rw [← h.1]
              simp [ih heq]

lemma updateStep_ok_length {data : Mat} {n k : ℕ} {reseed : ℕ → ℕ}
    {asg : List ℕ} {ctr : ℕ} {nc : List P3} {ctr2 : ℕ}
    (h : updateStep data n k reseed asg ctr = .ok (nc, ctr2)) :
    nc.length = k := by
  unfold updateStep at h
  split at h
  · simp at h
  · rename_i nc0 counts heq
    have h1 := accumStep_ok_length k heq
    have h2 := finalizeStep_ok_length data n reseed h
    simp at h1
    rw [h2, h1.1]


/-! ### The argmin property of the assignment inner loop -/

/-- Invariant of `bestLoop` once `best_dist` carries a real value `bd`:
either no centroid in the remaining list beats `bd` and the carried best
index survives, or the result is the first index (offset by `ci`) of the
minimum over the remaining list, that minimum beating `bd` strictly. -/
lemma bestLoop_invariant (p : P3) :
    ∀ (cs : List P3) (ci best : ℕ) (bd : ℚ),
    ∃ b2 d2, bestLoop p cs ci (best, some bd) = (b2, some d2) ∧
      ((b2 = best ∧ d2 = bd ∧ ∀ i (hi : i < cs.length), bd ≤ dsq p cs[i]) ∨
       (∃ j, ∃ hj : j < cs.length, b2 = ci + j ∧ d2 = dsq p cs[j] ∧ d2 < bd ∧
         (∀ i (hi : i < cs.length), d2 ≤ dsq p cs[i]) ∧
         (∀ i (hi : i < cs.length), i < j → d2 < dsq p cs[i]))) := by
  intro cs
  induction cs with
  | nil =>
    intro ci best bd
    exact ⟨best, bd, rfl, Or.inl ⟨rfl, rfl, fun i hi => absurd hi (by simp)⟩⟩
  | cons c rest ih =>
    intro ci best bd
    by_cases hcmp : dsq p c < bd
    · have hstep : bestLoop p (c :: rest) ci (best, some bd)
          = bestLoop p rest (ci + 1) (ci, some (dsq p c)) := by
        simp [bestLoop, hcmp]
      obtain ⟨b2, d2, heq, hcase⟩ := ih (ci + 1) ci (dsq p c)
      refine ⟨b2, d2, hstep ▸ heq, Or.inr ?_⟩
      rcases hcase with ⟨hb, hd, hall⟩ | ⟨j, hj, hb, hd, hlt, hall, hfirst⟩
      · refine ⟨0, by simp, by omega, by simpa using hd, by rw [hd]; exact hcmp,
          ?_, by omega⟩
        intro i hi
        cases i with
        | zero => simp [hd]
        | succ i =>
          simp only [List.getElem_cons_succ]
          exact hd ▸ hall i (by simpa using hi)
      · refine ⟨j + 1, by simp; omega, by omega, by simpa using hd,
          lt_trans hlt hcmp, ?_, ?_⟩
        · intro i hi
          cases i with
          | zero => simpa using le_of_lt hlt
          | succ i =>
            simp only [List.getElem_cons_succ]
            exact hall i (by simpa using hi)
        · intro i hi hij
          cases i with
          | zero => simpa using hlt
          | succ i =>
            simp only [List.getElem_cons_succ]
            exact hfirst i (by simpa using hi) (by omega)
    · have hbd : bd ≤ dsq p c := not_lt.mp hcmp
      have hstep : bestLoop p (c :: rest) ci (best, some bd)
          = bestLoop p rest (ci + 1) (best, some bd) := by
        simp [bestLoop, hcmp]
      obtain ⟨b2, d2, heq, hcase⟩ := ih (ci + 1) best bd
      refine ⟨b2, d2, hstep ▸ heq, ?_⟩
      rcases hcase with ⟨hb, hd, hall⟩ | ⟨j, hj, hb, hd, hlt, hall, hfirst⟩
      · refine Or.inl ⟨hb, hd, ?_⟩
        intro i hi
        cases i with
        | zero => simpa using hbd
        | succ i =>
          simp only [List.getElem_cons_succ]
          exact hall i (by simpa using hi)
      · refine Or.inr ⟨j + 1, by simp; omega, by omega, by simpa using hd,
          hlt, ?_, ?_⟩
        · intro i hi
          cases i with
          | zero => simpa using le_of_lt (lt_of_lt_of_le hlt hbd)
          | succ i =>
            simp only [List.getElem_cons_succ]
            exact hall i (by simpa using hi)
        · intro i hi hij
          cases i with
          | zero => simpa using lt_of_lt_of_le hlt hbd
          | succ i =>
            simp only [List.getElem_cons_succ]
            exact hfirst i (by simpa using hi) (by omega)

/-- The function `best_cluster` on a nonempty centroid list returns the first index achieving
the minimal squared distance. -/
lemma bestCluster_spec (p : P3) (c : P3) (rest : List P3) :
    ∃ hb : bestCluster p (c :: rest) < (c :: rest).length,
      (∀ i (hi : i < (c :: rest).length),
        dsq p ((c :: rest).get ⟨bestCluster p (c :: rest), hb⟩) ≤
          dsq p (c :: rest)[i]) ∧
      (∀ i (hi : i < (c :: rest).length), i < bestCluster p (c :: rest) →
        dsq p ((c :: rest).get ⟨bestCluster p (c :: rest), hb⟩) <
          dsq p (c :: rest)[i]) := by
  have hstart : bestLoop p (c :: rest) 0 (0, none)
      = bestLoop p rest 1 (0, some (dsq p c)) := by
    simp [bestLoop]
  obtain ⟨b2, d2, heq, hcase⟩ := bestLoop_invariant p rest 1 0 (dsq p c)
  have hbc : bestCluster p (c :: rest) = b2 := by
    rw [bestCluster, hstart, heq]
  rcases hcase with ⟨hb, hd, hall⟩ | ⟨j, hj, hb, hd, hlt, hall, hfirst⟩
  · have hb0 : bestCluster p (c :: rest) = 0 := by rw [hbc, hb]
    refine ⟨by rw [hb0]; simp, ?_, ?_⟩
    · intro i hi
      cases i with
      | zero => simp [hb0]
      | succ i =>
        simp only [hb0, List.getElem_cons_succ]
        simpa using hd ▸ hall i (by simpa using hi)
    · intro i hi hij
      rw [hb0] at hij
      omega
  · have hbj : bestCluster p (c :: rest) = j + 1 := by rw [hbc, hb]; omega
    have hjlt : j + 1 < (c :: rest).length := by simp; omega
    refine ⟨by rw [hbj]; exact hjlt, ?_, ?_⟩
    · intro i hi
      have hget : ((c :: rest).get ⟨bestCluster p (c :: rest), by rw [hbj]; exact hjlt⟩)
          = rest.get ⟨j, hj⟩ := by
        simp [hbj, List.get_cons_succ]
      cases i with
      | zero =>
        simp only [List.getElem_cons_zero]
        rw [hget]
        simpa [List.get_eq_getElem] using le_of_lt (hd ▸ hlt)
      | succ i =>
        simp only [List.getElem_cons_succ]
        rw [hget]
        simpa [List.get_eq_getElem] using hd ▸ hall i (by simpa using hi)
    · intro i hi hij
      have hget : ((c :: rest).get ⟨bestCluster p (c :: rest), by rw [hbj]; exact hjlt⟩)
          = rest.get ⟨j, hj⟩ := by
        simp [hbj, List.get_cons_succ]
      rw [hbj] at hij
      cases i with
      | zero =>
        simp only [List.getElem_cons_zero]
        rw [hget]
        simpa [List.get_eq_getElem] using hd ▸ hlt
      | succ i =>
        simp only [List.getElem_cons_succ]
        rw [hget]
        simpa [List.get_eq_getElem] using hd ▸ hfirst i (by simpa using hi) (by omega)

/-- The label produced for any point is below the number of centroids. -/
lemma bestCluster_lt (p : P3) (cs : List P3) (h : cs ≠ []) :
    bestCluster p cs < cs.length := by
  cases cs with
  | nil => exact absurd rfl h
  | cons c rest => exact (bestCluster_spec p c rest).choose


/-- Every label produced by the assignment step is below the number of
centroids. -/
lemma assignStep_labels (cs : List P3) (hne : cs ≠ []) :
    ∀ {d : Mat} {a : List ℕ}, assignStep cs d = .ok a →
      ∀ l ∈ a, l < cs.length := by
  intro d
  induction d with
  | nil =>
    intro a h
    simp [assignStep] at h
    rw [h]
    intro l hl
    simp at hl
  | cons row rest ih =>
    intro a h
    unfold assignStep at h
    split at h
    · simp at h
    · rename_i p0 hp0
      split at h
      · simp at h
      · rename_i tl htl
        simp at h
        rw [← h]
        intro l hl
        rcases List.mem_cons.mp hl with hl | hl
        · rw [hl]; exact bestCluster_lt p0 cs hne
        · exact ih htl l hl

/-- The label recorded for the i-th data row is `bestCluster` of the point
read from that row. -/
lemma assignStep_get (cs : List P3) :
    ∀ {d : Mat} {a : List ℕ}, assignStep cs d = .ok a →
    ∀ {i : ℕ} {row : List ℚ} {q : P3}, d[i]? = some row → readP3 row = some q →
      a[i]? = some (bestCluster q cs) := by
  intro d
  induction d with
  | nil => intro a h i row q hrow _; simp at hrow
  | cons r rest ih =>
    intro a h i row q hrow hread
    unfold assignStep at h
    split at h
    · simp at h
    · rename_i p0 hp0
      split at h
      · simp at h
      · rename_i tl htl
        simp at h
        subst h
        cases i with
        | zero =>
          simp only [List.getElem?_cons_zero, Option.some.injEq] at hrow
          subst hrow
          rw [hp0] at hread
          simp only [Option.some.injEq] at hread
          subst hread
          simp
        | succ i =>
          simp only [List.getElem?_cons_succ] at hrow ⊢
          exact ih htl hrow hread

/-- C6: in every assignment step each point is assigned to the centroid of
minimum Euclidean distance, and on ties to the first (lowest-index)
centroid achieving the minimum: the distance at the chosen index is a
lower bound over all centroids and strictly below the distance at every
earlier index. -/
theorem C6_nearest_lowest_index (cs : List P3) (hne : cs ≠ []) :
    (∀ p : P3, ∃ cj, cs[bestCluster p cs]? = some cj ∧
      ∀ i (hi : i < cs.length), e_dist3 p cj ≤ e_dist3 p cs[i] ∧
        (i < bestCluster p cs → e_dist3 p cj < e_dist3 p cs[i])) ∧
    (∀ (d : Mat) (a : List ℕ) (i : ℕ) (row : List ℚ) (q : P3),
      assignStep cs d = .ok a → d[i]? = some row → readP3 row = some q →
      a[i]? = some (bestCluster q cs)) := by
  constructor
  · intro p
    cases cs with
    | nil => exact absurd rfl hne
    | cons c rest =>
      obtain ⟨hb, hall, hfirst⟩ := bestCluster_spec p c rest
      refine ⟨(c :: rest).get ⟨bestCluster p (c :: rest), hb⟩,
        List.getElem?_eq_getElem hb, ?_⟩
      intro i hi
      constructor
      · rw [e_dist3_le_iff]
        exact hall i hi
      · intro hij
        rw [e_dist3_lt_iff]
        exact hfirst i hi hij
  · intro d a i row q h hrow hread
    exact assignStep_get cs h hrow hread

/-- Witness for C6 at a concrete centroid list. -/
theorem C6_nearest_lowest_index_witness :
    (([(⟨0, 0, 0⟩ : P3)] : List P3) ≠ []) ∧
    ((∀ p : P3, ∃ cj, ([(⟨0, 0, 0⟩ : P3)] : List P3)[bestCluster p [⟨0, 0, 0⟩]]? = some cj ∧
      ∀ i (hi : i < ([(⟨0, 0, 0⟩ : P3)] : List P3).length),
        e_dist3 p cj ≤ e_dist3 p ([(⟨0, 0, 0⟩ : P3)] : List P3)[i] ∧
        (i < bestCluster p [⟨0, 0, 0⟩] →
          e_dist3 p cj < e_dist3 p ([(⟨0, 0, 0⟩ : P3)] : List P3)[i])) ∧
    (∀ (d : Mat) (a : List ℕ) (i : ℕ) (row : List ℚ) (q : P3),
      assignStep [⟨0, 0, 0⟩] d = .ok a → d[i]? = some row → readP3 row = some q →
      a[i]? = some (bestCluster q [⟨0, 0, 0⟩]))) :=
  ⟨List.cons_ne_nil _ _, C6_nearest_lowest_index [⟨0, 0, 0⟩] (List.cons_ne_nil _ _)⟩

/-- Invariant of the main loop: once the centroid list has length k ≥ 1 and
the carried assignment is an n-vector of labels below k, any successful
result is an n-vector of labels below k. -/
lemma kloop_ok_labels {data : Mat} {n k : ℕ} {reseed : ℕ → ℕ}
    (hk : 1 ≤ k) (hdata : data.length = n) :
    ∀ {m : ℕ} {cs : List P3} {asg : List ℕ} {ctr : ℕ} {a : List ℕ},
      cs.length = k → asg.length = n → (∀ l ∈ asg, l < k) →
      kloop data n k reseed m cs asg ctr = .ok a →
      a.length = n ∧ ∀ l ∈ a, l < k := by
  intro m
  induction m with
  | zero =>
    intro cs asg ctr a _ hasg hlab h
    simp [kloop] at h
    rw [← h]
    exact ⟨hasg, hlab⟩
  | succ m ih =>
    intro cs asg ctr a hcs hasg hlab h
    have hne : cs ≠ [] := by
      intro hnil
      rw [hnil] at hcs
      simp at hcs
      omega
    unfold kloop at h
    split at h
    · simp at h
    · rename_i asg2 hasg2
      split at h
      · simp at h
      · rename_i nc ctr2 hupd
        have hlen2 : asg2.length = n := (assignStep_ok_length cs hasg2).trans hdata
        have hlab2 : ∀ l ∈ asg2, l < k :=
          fun l hl => hcs ▸ assignStep_labels cs hne hasg2 l hl
        split at h
        · simp at h
          rw [← h]
          exact ⟨hlen2, hlab2⟩
        · exact ih (updateStep_ok_length hupd) hlen2 hlab2 h

/-- C4: for valid inputs (k ≥ 1; the shuffled index vector covers at least
k positions, as it always does since it is a permutation of the n ≥ k row
indices), every successful result of `kmeans3d` has one label per input
row and every label lies in `[0, k)`. -/
theorem C4_ok_assignment_shape (ds : Mat) (k max_iter : ℕ) (perm : List ℕ)
    (reseed : ℕ → ℕ) (a : List ℕ) (hk : 1 ≤ k) (hperm : k ≤ perm.length)
    (h : kmeans3d ds k max_iter perm reseed = .ok a) :
    a.length = ds.length ∧ ∀ l ∈ a, l < k := by
  unfold kmeans3d at h
  simp only at h
  split at h
  · simp at h
  · split at h
    · simp at h
    · rename_i cs hcs
      have hcslen : cs.length = k := by
        rw [initCentroids_ok_length _ hcs, List.length_take]
        omega
      have hres := kloop_ok_labels hk rfl hcslen (List.length_replicate _ _)
        (by intro l hl; rw [List.eq_of_mem_replicate hl]; omega) h
      simpa [numeric_view] using hres

/-- Witness for C4 at a concrete run. -/
theorem C4_ok_assignment_shape_witness :
    1 ≤ 1 ∧ 1 ≤ ([0] : List ℕ).length ∧
    kmeans3d [[(0 : ℚ), 0, 0]] 1 0 [0] (fun _ => 0) = .ok [0] ∧
    (([0] : List ℕ).length = [[(0 : ℚ), 0, 0]].length ∧
      ∀ l ∈ ([0] : List ℕ), l < 1) :=
  ⟨le_refl 1, by simp, rfl,
    C4_ok_assignment_shape [[(0 : ℚ), 0, 0]] 1 0 [0] (fun _ => 0) [0]
      (le_refl 1) (by simp) rfl⟩


/-! ### Successful initialization -/

/-- The reader `readP3` fails exactly on rows shorter than 3 entries. -/
lemma readP3_none {r : List ℚ} (h : r.length < 3) : readP3 r = none := by
  match r with
  | [] => rfl
  | [a] => rfl
  | [a, b] => rfl
  | a :: b :: c :: t => simp at h; omega

/-- Centroid initialization succeeds when every selected index is in range
and every row has a broadcastable shape (length 1 or exactly 3). -/
lemma initCentroids_ok_of_valid (data : Mat)
    (hrow : ∀ r ∈ data, r.length = 1 ∨ r.length = 3) :
    ∀ {idxs : List ℕ}, (∀ i ∈ idxs, i < data.length) →
      ∃ cs, initCentroids data idxs = .ok cs := by
  intro idxs
  induction idxs with
  | nil => exact fun _ => ⟨[], rfl⟩
  | cons idx rest ih =>
    intro hidx
    have hlt : idx < data.length := hidx idx (List.mem_cons_self idx rest)
    obtain ⟨cs, hcs⟩ := ih (fun i hi => hidx i (List.mem_cons_of_mem _ hi))
    have hrowlen := hrow data[idx] (List.getElem_mem hlt)
    have hsome : ∃ p, assignRow3 data[idx] = some p := by
      rcases hrowlen with h1 | h3
      · obtain ⟨a, ha⟩ := List.length_eq_one.mp h1
        rw [ha]; exact ⟨⟨a, a, a⟩, rfl⟩
      · obtain ⟨a, b, c, habc⟩ := List.length_eq_three.mp h3
        rw [habc]; exact ⟨⟨a, b, c⟩, rfl⟩
    obtain ⟨p, hp⟩ := hsome
    refine ⟨p :: cs, ?_⟩
    simp [initCentroids, List.getElem?_eq_getElem hlt, hp, hcs]

/-- C3 (amended): with `max_iterations == 0` and a valid input (at least k
points, rows of width at least 3, in-range shuffled indices) `kmeans3d`
returns an assignment, but it is the initial `vec![0; nrows]` — every
label is 0 — not the nearest-initial-centroid assignment. -/
theorem C3_zero_iter_all_zero (ds : Mat) (k : ℕ) (perm : List ℕ)
    (reseed : ℕ → ℕ) (hrow : ∀ r ∈ ds, 3 ≤ r.length) (hk : k ≤ ds.length)
    (hperm : ∀ i ∈ perm, i < ds.length) :
    kmeans3d ds k 0 perm reseed = .ok (List.replicate ds.length 0) := by
  have hview : ∀ r ∈ numeric_view 3 ds, r.length = 1 ∨ r.length = 3 := by
    intro r hr
    rcases List.mem_map.mp hr with ⟨r0, hr0, rfl⟩
    right
    rw [List.length_take]
    have := hrow r0 hr0
    omega
  have hidx : ∀ i ∈ perm.take k, i < (numeric_view 3 ds).length := by
    intro i hi
    have hmem : i ∈ perm := List.take_subset k perm hi
    simpa [numeric_view] using hperm i hmem
  obtain ⟨cs, hcs⟩ := initCentroids_ok_of_valid _ hview hidx
  simp only [kmeans3d]
  rw [if_neg (by simp only [numeric_view, List.length_map]; omega)]
  rw [hcs]
  simp [kloop, numeric_view]

/-- Witness for C3 at a concrete run. -/
theorem C3_zero_iter_all_zero_witness :
    (∀ r ∈ [[(0 : ℚ), 0, 0], [1, 1, 1]], 3 ≤ r.length) ∧
    1 ≤ ([[(0 : ℚ), 0, 0], [1, 1, 1]] : Mat).length ∧
    (∀ i ∈ [1, 0], i < ([[(0 : ℚ), 0, 0], [1, 1, 1]] : Mat).length) ∧
    kmeans3d [[(0 : ℚ), 0, 0], [1, 1, 1]] 1 0 [1, 0] (fun _ => 0) =
      .ok (List.replicate ([[(0 : ℚ), 0, 0], [1, 1, 1]] : Mat).length 0) := by
  have hrow : ∀ r ∈ [[(0 : ℚ), 0, 0], [1, 1, 1]], 3 ≤ r.length := by
    intro r hr
    rcases List.mem_cons.mp hr with rfl | hr
    · simp
    · rcases List.mem_cons.mp hr with rfl | hr
      · simp
      · simp at hr
  have hperm : ∀ i ∈ [1, 0], i < ([[(0 : ℚ), 0, 0], [1, 1, 1]] : Mat).length := by
    simp
  exact ⟨hrow, by simp, hperm,
    C3_zero_iter_all_zero [[(0 : ℚ), 0, 0], [1, 1, 1]] 1 [1, 0] (fun _ => 0)
      hrow (by simp) hperm⟩

/-- C7: the iteration structure — each iteration runs the assignment step
and the update step; when the total absolute coordinate-wise difference
between the old and new centroids is below 1e-4 the loop stops and returns
the assignment of the last completed assignment step, otherwise it adopts
the new centroids and continues; with an exhausted iteration budget the
current assignment is returned unconditionally. -/
theorem C7_convergence_control (data : Mat) (n k : ℕ) (reseed : ℕ → ℕ)
    (cs nc : List P3) (asg asg2 : List ℕ) (ctr m ctr2 : ℕ)
    (h1 : assignStep cs data = .ok asg2)
    (h2 : updateStep data n k reseed asg2 ctr = .ok (nc, ctr2)) :
    (diffSum cs nc < 1 / 10000 →
      kloop data n k reseed (m + 1) cs asg ctr = .ok asg2) ∧
    (¬ diffSum cs nc < 1 / 10000 →
      kloop data n k reseed (m + 1) cs asg ctr =
        kloop data n k reseed m nc asg2 ctr2) ∧
    kloop data n k reseed 0 cs asg ctr = .ok asg := by
  refine ⟨?_, ?_, rfl⟩
  · intro hd
    simp only [kloop, h1, h2]
    rw [if_pos hd]
  · intro hd
    simp only [kloop, h1, h2]
    rw [if_neg hd]

/-- Witness for C7 at a concrete converged iteration. -/
theorem C7_convergence_control_witness :
    assignStep [(⟨0, 0, 0⟩ : P3)] [[(0 : ℚ), 0, 0]] = .ok [0] ∧
    updateStep [[(0 : ℚ), 0, 0]] 1 1 (fun _ => 0) [0] 0 =
      .ok ([⟨0, 0, 0⟩], 0) ∧
    ((diffSum [(⟨0, 0, 0⟩ : P3)] [⟨0, 0, 0⟩] < 1 / 10000 →
      kloop [[(0 : ℚ), 0, 0]] 1 1 (fun _ => 0) 1 [⟨0, 0, 0⟩] [7] 0 = .ok [0]) ∧
    (¬ diffSum [(⟨0, 0, 0⟩ : P3)] [⟨0, 0, 0⟩] < 1 / 10000 →
      kloop [[(0 : ℚ), 0, 0]] 1 1 (fun _ => 0) 1 [⟨0, 0, 0⟩] [7] 0 =
        kloop [[(0 : ℚ), 0, 0]] 1 1 (fun _ => 0) 0 [⟨0, 0, 0⟩] [0] 0) ∧
    kloop [[(0 : ℚ), 0, 0]] 1 1 (fun _ => 0) 0 [⟨0, 0, 0⟩] [7] 0 = .ok [7]) := by
  have h1 : assignStep [(⟨0, 0, 0⟩ : P3)] [[(0 : ℚ), 0, 0]] = .ok [0] := rfl
  have h2 : updateStep [[(0 : ℚ), 0, 0]] 1 1 (fun _ => 0) [0] 0 =
      .ok ([⟨0, 0, 0⟩], 0) := by
    norm_num [updateStep, accumStep, finalizeStep, assignRow3]
  exact ⟨h1, h2,
    C7_convergence_control [[(0 : ℚ), 0, 0]] 1 1 (fun _ => 0) [⟨0, 0, 0⟩]
      [⟨0, 0, 0⟩] [7] [0] 0 0 0 h1 h2⟩


/-! ### The empty-cluster reseeding policy -/

/-- The counts computed by the accumulation loop are the per-cluster
occurrence counts of the assignment vector (on top of the initial counts). -/
lemma accumStep_counts (k : ℕ) :
    ∀ {d : Mat} {asg : List ℕ} {nc : List P3} {counts : List ℕ}
      {nc2 : List P3} {counts2 : List ℕ},
      accumStep k d asg nc counts = .ok (nc2, counts2) →
      d.length = asg.length → counts.length = k →
      ∀ ci, ∀ hci : ci < counts.length,
        counts2[ci]? = some (counts[ci] + asg.count ci) := by
  intro d
  induction d with
  | nil =>
    intro asg nc counts nc2 counts2 h hlen _ ci hci
    have hasg : asg = [] := by
      cases asg with
      | nil => rfl
      | cons a t => simp at hlen
    subst hasg
    simp [accumStep] at h
    rw [← h.2]
    simp [List.getElem?_eq_getElem hci]
  | cons row rest ih =>
    intro asg nc counts nc2 counts2 h hlen hck ci hci
    cases asg with
    | nil => simp [accumStep] at h
    | cons c arest =>
      unfold accumStep at h
      split at h
      · rename_i hc
        split at h
        · simp at h
        · rename_i p hp
          have hclen : c < counts.length := by omega
          have hlen2 : rest.length = arest.length := by simpa using hlen
          have hck2 : (counts.set c (counts.getD c 0 + 1)).length = k := by
            simpa using hck
          have hci2 : ci < (counts.set c (counts.getD c 0 + 1)).length := by
            simpa using hci
          have := ih h hlen2 hck2 ci hci2
          rw [this]
          by_cases hcc : ci = c
          · subst hcc
            rw [List.getElem_set_self (by simpa using hci2)]
            simp only [List.getD_eq_getElem?_getD, List.getElem?_eq_getElem hclen,
              Option.getD_some, List.count_cons_self]
            congr 1
            omega
          · rw [List.getElem_set_ne (by omega)]
            rw [List.count_cons_of_ne hcc]
      · simp at h


/-- Every cluster whose count is zero gets, from the per-cluster loop, a
centroid read from a data row at an index below n. -/
lemma finalizeStep_reseed (data : Mat) (n : ℕ) (reseed : ℕ → ℕ)
    (hlen : data.length = n) :
    ∀ {ps : List P3} {cnts : List ℕ} {ctr : ℕ} {qs : List P3} {ctr2 : ℕ},
      ps.length = cnts.length →
      finalizeStep data n reseed ps cnts ctr = .ok (qs, ctr2) →
      ∀ ci : ℕ, cnts[ci]? = some 0 →
        ∃ idx : ℕ, ∃ hidx : idx < n, ∃ (row : List ℚ) (p : P3),
          data[idx]? = some row ∧
          assignRow3 row = some p ∧ qs[ci]? = some p := by
  intro ps
  induction ps with
  | nil =>
    intro cnts ctr qs ctr2 hl h ci hci
    have hnil : cnts = [] := by
      cases cnts with
      | nil => rfl
      | cons a t => simp at hl
    subst hnil
    simp at hci
  | cons p ps ih =>
    intro cnts ctr qs ctr2 hl h ci hci
    cases cnts with
    | nil => simp at hl
    | cons cnt cnts =>
      unfold finalizeStep at h
      by_cases hcnt : 0 < cnt
      · rw [if_pos hcnt] at h
        cases hrec : finalizeStep data n reseed ps cnts ctr with
        | error e => simp only [hrec] at h; simp at h
        | ok pr =>
          obtain ⟨qs2, ctr3⟩ := pr
          simp only [hrec] at h
          simp at h
          obtain ⟨hqs, hctr⟩ := h
          cases ci with
          | zero =>
            simp at hci
            omega
          | succ ci =>
            simp only [List.getElem?_cons_succ] at hci
            obtain ⟨idx, hidx, row, q, hrow, hq, hg⟩ :=
              ih (by simpa using hl) hrec ci hci
            exact ⟨idx, hidx, row, q, hrow, hq, by rw [← hqs]; simpa using hg⟩
      · rw [if_neg hcnt] at h
        cases hdat : data[reseed ctr % n]? with
        | none => simp only [hdat] at h; simp at h
        | some row =>
          simp only [hdat] at h
          cases hbr : assignRow3 row with
          | none => simp only [hbr] at h; simp at h
          | some q =>
            simp only [hbr] at h
            cases hrec : finalizeStep data n reseed ps cnts (ctr + 1) with
            | error e => simp only [hrec] at h; simp at h
            | ok pr =>
              obtain ⟨qs2, ctr3⟩ := pr
              simp only [hrec] at h
              simp at h
              obtain ⟨hqs, hctr⟩ := h
              cases ci with
              | zero =>
                obtain ⟨hlt, _⟩ := List.getElem?_eq_some_iff.mp hdat
                exact ⟨reseed ctr % n, by omega, row, q, hdat, hbr,
                  by rw [← hqs]; simp⟩
              | succ ci =>
                simp only [List.getElem?_cons_succ] at hci
                obtain ⟨idx, hidx, row2, q2, hrow2, hq2, hg⟩ :=
                  ih (by simpa using hl) hrec ci hci
                exact ⟨idx, hidx, row2, q2, hrow2, hq2, by rw [← hqs]; simpa using hg⟩

/-- C8: in every update step, each cluster that received zero points in the
preceding assignment step has its new centroid set to a point of the full
point set (a data row at some index in [0, n)), rather than being left at
its old value or undefined. -/
theorem C8_empty_cluster_reseeded (data : Mat) (n k : ℕ) (reseed : ℕ → ℕ)
    (asg : List ℕ) (ctr : ℕ) (nc : List P3) (ctr2 : ℕ)
    (hn : data.length = n) (hasg : data.length = asg.length)
    (hupd : updateStep data n k reseed asg ctr = .ok (nc, ctr2)) :
    ∀ ci, ci < k → asg.count ci = 0 →
      ∃ idx, ∃ hidx : idx < n, ∃ row p, data[idx]? = some row ∧
        assignRow3 row = some p ∧ nc[ci]? = some p := by
  intro ci hcik hcnt
  unfold updateStep at hupd
  cases hacc : accumStep k data asg (List.replicate k ⟨0, 0, 0⟩)
      (List.replicate k 0) with
  | error e => rw [hacc] at hupd; simp at hupd
  | ok pr =>
    obtain ⟨nc0, counts⟩ := pr
    rw [hacc] at hupd
    have hcounts := accumStep_counts k hacc hasg (by simp) ci (by simp [hcik])
    have hc0 : counts[ci]? = some 0 := by
      rw [hcounts, List.getElem_replicate, hcnt]
    have hlens := accumStep_ok_length k hacc
    have hpc : nc0.length = counts.length := by
      rw [hlens.1, hlens.2]
      simp
    exact finalizeStep_reseed data n reseed hn hpc hupd ci hc0

/-- Witness for C8 at a concrete update step with an empty cluster. -/
theorem C8_empty_cluster_reseeded_witness :
    ([[(0 : ℚ), 0, 0], [5, 5, 5]] : Mat).length = 2 ∧
    ([[(0 : ℚ), 0, 0], [5, 5, 5]] : Mat).length = ([0, 0] : List ℕ).length ∧
    updateStep [[(0 : ℚ), 0, 0], [5, 5, 5]] 2 2 (fun _ => 1) [0, 0] 0 =
      .ok ([⟨5 / 2, 5 / 2, 5 / 2⟩, ⟨5, 5, 5⟩], 1) ∧
    (∀ ci, ci < 2 → ([0, 0] : List ℕ).count ci = 0 →
      ∃ idx, ∃ hidx : idx < 2, ∃ row p,
        ([[(0 : ℚ), 0, 0], [5, 5, 5]] : Mat)[idx]? = some row ∧
        assignRow3 row = some p ∧
        ([⟨5 / 2, 5 / 2, 5 / 2⟩, ⟨5, 5, 5⟩] : List P3)[ci]? = some p) := by
  have h : updateStep [[(0 : ℚ), 0, 0], [5, 5, 5]] 2 2 (fun _ => 1) [0, 0] 0 =
      .ok ([⟨5 / 2, 5 / 2, 5 / 2⟩, ⟨5, 5, 5⟩], 1) := by
    norm_num [updateStep, accumStep, finalizeStep, assignRow3]
  exact ⟨rfl, rfl, h,
    C8_empty_cluster_reseeded [[(0 : ℚ), 0, 0], [5, 5, 5]] 2 2 (fun _ => 1)
      [0, 0] 0 [⟨5 / 2, 5 / 2, 5 / 2⟩, ⟨5, 5, 5⟩] 1 rfl rfl h⟩


/-! ### Initialization places centroids at distinct data rows -/

/-- Each initial centroid is the (broadcast-assigned) data row at the
corresponding selected index. -/
lemma initCentroids_get (data : Mat) :
    ∀ {idxs : List ℕ} {cs : List P3}, initCentroids data idxs = .ok cs →
    ∀ {j idx : ℕ}, idxs[j]? = some idx →
      ∃ row, data[idx]? = some row ∧ cs[j]? = assignRow3 row := by
  intro idxs
  induction idxs with
  | nil => intro cs h j idx hj; simp at hj
  | cons i0 rest ih =>
    intro cs h j idx hj
    unfold initCentroids at h
    cases hd : data[i0]? with
    | none => simp only [hd] at h; simp at h
    | some row0 =>
      simp only [hd] at h
      cases hb : assignRow3 row0 with
      | none => simp only [hb] at h; simp at h
      | some p =>
        simp only [hb] at h
        cases hr : initCentroids data rest with
        | error e => simp only [hr] at h; simp at h
        | ok cs2 =>
          simp only [hr] at h
          simp at h
          subst h
          cases j with
          | zero =>
            simp only [List.getElem?_cons_zero, Option.some.injEq] at hj
            subst hj
            exact ⟨row0, hd, by simp [hb]⟩
          | succ j =>
            simp only [List.getElem?_cons_succ] at hj ⊢
            exact ih hr hj

/-- C9: for every valid input and every state of the random source (every
shuffled permutation of the row indices), initialization takes the first k
shuffled indices — k distinct indices below n — and places the initial
centroids at the corresponding data rows. -/
theorem C9_init_distinct_rows (ds : Mat) (k : ℕ) (perm : List ℕ)
    (hperm : perm.Perm (List.range ds.length)) (hk : k ≤ ds.length)
    (hrow : ∀ r ∈ ds, 3 ≤ r.length) :
    ∃ cs, initCentroids (numeric_view 3 ds) (perm.take k) = .ok cs ∧
      (perm.take k).Nodup ∧ (perm.take k).length = k ∧
      (∀ i ∈ perm.take k, i < ds.length) ∧ cs.length = k ∧
      ∀ j idx : ℕ, (perm.take k)[j]? = some idx →
        ∃ row, ds[idx]? = some row ∧ cs[j]? = assignRow3 (row.take 3) := by
  have hplen : perm.length = ds.length := by simpa using hperm.length_eq
  have hmem : ∀ i ∈ perm.take k, i < ds.length := by
    intro i hi
    have hip : i ∈ perm := List.take_subset k perm hi
    simpa using hperm.mem_iff.mp hip
  have hview : ∀ r ∈ numeric_view 3 ds, r.length = 1 ∨ r.length = 3 := by
    intro r hr
    rcases List.mem_map.mp hr with ⟨r0, hr0, rfl⟩
    right
    rw [List.length_take]
    have := hrow r0 hr0
    omega
  obtain ⟨cs, hcs⟩ := initCentroids_ok_of_valid _ hview
    (by intro i hi; simpa [numeric_view] using hmem i hi)
  refine ⟨cs, hcs, ?_, ?_, hmem, ?_, ?_⟩
  · exact List.Nodup.sublist (List.take_sublist k perm)
      (hperm.nodup_iff.mpr (List.nodup_range _))
  · rw [List.length_take]; omega
  · rw [initCentroids_ok_length _ hcs, List.length_take]; omega
  · intro j idx hj
    obtain ⟨row, hrowv, hcsj⟩ := initCentroids_get _ hcs hj
    simp only [numeric_view, List.getElem?_map] at hrowv
    cases hds : ds[idx]? with
    | none => rw [hds] at hrowv; simp at hrowv
    | some row0 =>
      rw [hds] at hrowv
      simp at hrowv
      exact ⟨row0, rfl, by rw [hcsj, ← hrowv]⟩

/-- Witness for C9 at a concrete input and permutation. -/
theorem C9_init_distinct_rows_witness :
    ([1, 0] : List ℕ).Perm (List.range ([[(0 : ℚ), 0, 0], [1, 1, 1]] : Mat).length) ∧
    2 ≤ ([[(0 : ℚ), 0, 0], [1, 1, 1]] : Mat).length ∧
    (∀ r ∈ [[(0 : ℚ), 0, 0], [1, 1, 1]], 3 ≤ r.length) ∧
    (∃ cs, initCentroids (numeric_view 3 [[(0 : ℚ), 0, 0], [1, 1, 1]])
        (([1, 0] : List ℕ).take 2) = .ok cs ∧
      (([1, 0] : List ℕ).take 2).Nodup ∧ (([1, 0] : List ℕ).take 2).length = 2 ∧
      (∀ i ∈ ([1, 0] : List ℕ).take 2,
        i < ([[(0 : ℚ), 0, 0], [1, 1, 1]] : Mat).length) ∧ cs.length = 2 ∧
      ∀ j idx : ℕ, (([1, 0] : List ℕ).take 2)[j]? = some idx →
        ∃ row, ([[(0 : ℚ), 0, 0], [1, 1, 1]] : Mat)[idx]? = some row ∧
          cs[j]? = assignRow3 (row.take 3)) := by
  have hrow : ∀ r ∈ [[(0 : ℚ), 0, 0], [1, 1, 1]], 3 ≤ r.length := by
    intro r hr
    rcases List.mem_cons.mp hr with rfl | hr
    · simp
    · rcases List.mem_cons.mp hr with rfl | hr
      · simp
      · simp at hr
  have hperm : ([1, 0] : List ℕ).Perm
      (List.range ([[(0 : ℚ), 0, 0], [1, 1, 1]] : Mat).length) := by
    decide
  exact ⟨hperm, by simp, hrow,
    C9_init_distinct_rows [[(0 : ℚ), 0, 0], [1, 1, 1]] 2 [1, 0] hperm
      (by simp) hrow⟩


/-! ### Behavior on matrices with fewer than 3 columns -/

/-- The function `assignRow3` (the `ndarray` broadcast assign into a width-3 row) fails
exactly on sources whose length is neither 1 nor 3. -/
lemma assignRow3_none {r : List ℚ} (h1 : r.length ≠ 1) (h3 : r.length ≠ 3) :
    assignRow3 r = none := by
  match r with
  | [] => rfl
  | [a] => simp at h1
  | [a, b] => rfl
  | [a, b, c] => simp at h3
  | a :: b :: c :: d :: t => rfl

/-- The assignment step panics as soon as the first row is shorter than 3
entries (the unguarded reads `row[0], row[1], row[2]`). -/
lemma assignStep_panic_short (cs : List P3) (row : List ℚ) (rest : Mat)
    (h : row.length < 3) : assignStep cs (row :: rest) = .error .panic := by
  simp [assignStep, readP3_none h]

/-- C5 (amended): on a matrix whose rows all have length L < 3, with
k ≥ 1 and at least k rows, `kmeans3d` panics whenever `max_iter ≥ 1`
(the unguarded coordinate reads in the assignment step); with
`max_iter = 0` it panics if and only if L ≠ 1 — for L = 0 or L = 2 the
centroid row assignment is a shape mismatch, but a single-column row
broadcasts into the 3-wide centroid row and the call returns Ok. -/
theorem C5_short_rows_panic (ds : Mat) (k max_iter : ℕ) (perm : List ℕ)
    (reseed : ℕ → ℕ) (L : ℕ) (hL : L < 3) (hrow : ∀ r ∈ ds, r.length = L)
    (hk : 1 ≤ k) (hkn : k ≤ ds.length)
    (hperm : perm.Perm (List.range ds.length)) :
    (1 ≤ max_iter → kmeans3d ds k max_iter perm reseed = .error .panic) ∧
    (kmeans3d ds k 0 perm reseed = .error .panic ↔ L ≠ 1) := by
  have hplen : perm.length = ds.length := by simpa using hperm.length_eq
  have hmemp : ∀ i ∈ perm, i < ds.length := by
    intro i hi
    simpa using hperm.mem_iff.mp hi
  have hviewlen : (numeric_view 3 ds).length = ds.length := by
    simp [numeric_view]
  have hviewrow : ∀ r ∈ numeric_view 3 ds, r.length = L := by
    intro r hr
    rcases List.mem_map.mp hr with ⟨r0, hr0, rfl⟩
    rw [List.take_of_length_le]
    · exact hrow r0 hr0
    · rw [hrow r0 hr0]; omega
  have hguard : ¬ (numeric_view 3 ds).length < k := by rw [hviewlen]; omega
  by_cases hL1 : L = 1
  · subst hL1
    obtain ⟨cs, hcs⟩ := initCentroids_ok_of_valid (numeric_view 3 ds)
      (fun r hr => Or.inl (hviewrow r hr))
      (by intro i hi; rw [hviewlen]; exact hmemp i (List.take_subset k perm hi))
    constructor
    · intro hmi
      obtain ⟨m, rfl⟩ : ∃ m, max_iter = m + 1 := ⟨max_iter - 1, by omega⟩
      obtain ⟨row, rest, hv⟩ : ∃ row rest, numeric_view 3 ds = row :: rest := by
        cases hv : numeric_view 3 ds with
        | nil => rw [hv] at hviewlen; simp at hviewlen; omega
        | cons row rest => exact ⟨row, rest, rfl⟩
      have hrl : row.length = 1 :=
        hviewrow row (by rw [hv]; exact List.mem_cons_self _ _)
      have hassign : assignStep cs (numeric_view 3 ds) = .error .panic := by
        rw [hv]
        exact assignStep_panic_short cs row rest (by omega)
      simp only [kmeans3d]
      rw [if_neg hguard, hcs]
      simp [kloop, hassign]
    · have hok : kmeans3d ds k 0 perm reseed =
          .ok (List.replicate ds.length 0) := by
        simp only [kmeans3d]
        rw [if_neg hguard, hcs]
        simp [kloop, hviewlen]
      rw [hok]
      simp
  · have hinit : initCentroids (numeric_view 3 ds) (perm.take k) =
        .error .panic := by
      cases perm with
      | nil => simp at hplen; omega
      | cons i0 ptl =>
        cases k with
        | zero => omega
        | succ k2 =>
          rw [List.take_succ_cons]
          have hi0 : i0 < (numeric_view 3 ds).length := by
            rw [hviewlen]; exact hmemp i0 (List.mem_cons_self _ _)
          have hrl : (numeric_view 3 ds)[i0].length = L :=
            hviewrow _ (List.getElem_mem hi0)
          have hnone : assignRow3 (numeric_view 3 ds)[i0] = none :=
            assignRow3_none (by rw [hrl]; exact fun hx => hL1 hx)
              (by rw [hrl]; omega)
          simp [initCentroids, List.getElem?_eq_getElem hi0, hnone]
    constructor
    · intro _
      simp only [kmeans3d]
      rw [if_neg hguard, hinit]
    · constructor
      · intro _; exact hL1
      · intro _
        simp only [kmeans3d]
        rw [if_neg hguard, hinit]

/-- Witness for C5 (amended) at a concrete 2-column matrix. -/
theorem C5_short_rows_panic_witness :
    (2 < 3) ∧ (∀ r ∈ [[(1 : ℚ), 2]], r.length = 2) ∧ 1 ≤ 1 ∧
    1 ≤ ([[(1 : ℚ), 2]] : Mat).length ∧
    ([0] : List ℕ).Perm (List.range ([[(1 : ℚ), 2]] : Mat).length) ∧
    ((1 ≤ 1 → kmeans3d [[(1 : ℚ), 2]] 1 1 [0] (fun _ => 0) = .error .panic) ∧
      (kmeans3d [[(1 : ℚ), 2]] 1 0 [0] (fun _ => 0) = .error .panic ↔ 2 ≠ 1)) := by
  have hrow : ∀ r ∈ [[(1 : ℚ), 2]], r.length = 2 := by
    intro r hr
    rcases List.mem_cons.mp hr with rfl | hr
    · simp
    · simp at hr
  have hperm : ([0] : List ℕ).Perm (List.range ([[(1 : ℚ), 2]] : Mat).length) := by
    decide
  exact ⟨by omega, hrow, le_refl 1, by simp, hperm,
    C5_short_rows_panic [[(1 : ℚ), 2]] 1 1 [0] (fun _ => 0) 2 (by omega) hrow
      (le_refl 1) (by simp) hperm⟩

end RustKmeans
